import Mathlib

/-!
Shallow embedding of the data-preparation and query engine of
`src/app2.py` (a Streamlit dashboard over a table of listed companies'
digital-transformation metrics), together with theorems settling the
specification's claims about it.

Conventions of the embedding:
* a dataframe row is a `Record`: a stock code (`code : Nat`, the 股票代码
  column), an optional industry (行业), an optional company name (企业名称,
  `none` models a NaN cell), and named numeric metric cells (`Option ℚ`,
  `none` models NaN);
* numeric values are rationals (the reshaping and range logic copies and
  averages values; no floating-point rounding is at issue in the claims);
* pandas `Series.str.contains(pat)` keeps its default `regex=True`; it is
  embedded by `reSearch`, a model of `re.search` that is faithful for
  patterns built from literal characters and the metacharacter `.` only
  (all patterns appearing in theorems stay inside that fragment);
* errors surfaced through `st.error` / `st.warning` become constructors of
  `LookupError`.
-/

namespace App2

/-- A dataframe row: stock code (股票代码), optional industry (行业),
optional company name (企业名称, `none` = NaN), and named metric cells
(`none` = NaN). Stock codes are nonnegative decimal integers. -/
structure Record where
  code : Nat
  industry : Option String := none
  name : Option String := none
  cells : List (String × Option ℚ) := []
deriving Repr, DecidableEq

/-- A loaded dataframe: its rows, and whether the 企业名称 column exists
(`main` checks `"企业名称" in df.columns` before name queries). -/
structure Frame where
  rows : List Record
  hasNameColumn : Bool
deriving Repr, DecidableEq

/-! ### Regular-expression fragment

`pandas.Series.str.contains(pat)` is called in `main` (src/app2.py lines
369 and 377) without `regex=False`, so `pat` is interpreted by `re.search`.
The model below is faithful for patterns consisting of literal characters
and the metacharacter `.` (which matches any single character). -/

/-- One pattern character against one subject character: `.` matches any
character, a literal character matches only itself. -/
def dotMatches (p c : Char) : Bool := p == '.' || p == c

/-- `matchesAt pat s` : the pattern matches pointwise at the start of `s`
(a prefix match). -/
def matchesAt : List Char → List Char → Bool
  | [], _ => true
  | _ :: _, [] => false
  | p :: ps, c :: cs => dotMatches p c && matchesAt ps cs

/-- Embedding of `re.search(pat, s) is not None` — hence of
`Series.str.contains(pat)` with its default `regex=True` — for patterns of
literal characters and `.`: the pattern matches at some position of `s`. -/
def reSearch (pat : List Char) : List Char → Bool
  | [] => matchesAt pat []
  | c :: cs => matchesAt pat (c :: cs) || reSearch pat cs

/-- Characters that Python `re` treats as plain literals: everything except
the regex metacharacters. A query made only of such characters (e.g. a
digit string) is matched by `re.search` exactly as a literal substring. -/
def isRegexLiteral (c : Char) : Bool :=
  !(c ∈ ['.', '*', '+', '?', '[', ']', '(', ')', '\x7b', '\x7d', '^', '$', '|', '\\'])

/-! ### Python `int` parsing -/

/-- Value of an all-digit character list (accumulator form); `none` as soon
as a non-digit appears. -/
def digitsValAux : List Char → Nat → Option Nat
  | [], acc => some acc
  | c :: cs, acc =>
    if c.isDigit then digitsValAux cs (10 * acc + (c.toNat - '0'.toNat)) else none

/-- Value of a non-empty all-digit character list; `none` on the empty list
or on any non-digit character. -/
def digitsVal : List Char → Option Nat
  | [] => none
  | c :: cs => digitsValAux (c :: cs) 0

/-- Embedding of Python `int(query_text)` on already-stripped text (the
caller strips, src/app2.py line 359) without digit-group underscores: an
optional sign followed by one or more decimal digits; `none` models the
`ValueError` that `main` catches at line 378. -/
def pyInt : List Char → Option Int
  | '-' :: cs => (digitsVal cs).map fun n => -(n : Int)
  | '+' :: cs => (digitsVal cs).map fun n => (n : Int)
  | cs => (digitsVal cs).map fun n => (n : Int)

/-! ### The lookup resolver (src/app2.py lines 362-383) -/

/-- The two query-by choices offered by the UI (查询依据). -/
inductive QueryField
  | identifier
  | byName
deriving Repr, DecidableEq

/-- The two query methods offered by the UI (查询方式): 精确查询 / 模糊查询. -/
inductive QueryMode
  | exact
  | fuzzy
deriving Repr, DecidableEq

/-- Errors the query block surfaces instead of a result:
`validationError` models the `except ValueError` branch (line 378,
non-integer stock code), `configurationError` models the missing
企业名称-column check (line 371). -/
inductive LookupError
  | validationError
  | configurationError
deriving Repr, DecidableEq

/-- Embedding of the query-button logic of `main` (src/app2.py lines
362-383).
* identifier + exact: `code_int = int(query_text)`;
  `df[df["股票代码"] == code_int]`; `ValueError` → error message.
* identifier + fuzzy: `df[df["股票代码"].astype(str).str.contains(query_text)]`
  — the stock-code column rendered in decimal and regex-searched.
* name queries first require the 企业名称 column;
  exact: `df[df["企业名称"] == query_text]` (a NaN cell compares unequal to
  any string, so missing-name rows are dropped);
  fuzzy: `df[df["企业名称"].str.contains(query_text, na=False)]` (`na=False`
  turns missing-name rows into non-matches). -/
def resolve (df : Frame) (query : String) (field : QueryField) (mode : QueryMode) :
    Except LookupError (List Record) :=
  match field with
  | .identifier =>
    match mode with
    | .exact =>
      match pyInt query.data with
      | none => .error .validationError
      | some n => .ok (df.rows.filter fun r => (r.code : Int) == n)
    | .fuzzy =>
      .ok (df.rows.filter fun r => reSearch query.data (Nat.toDigits 10 r.code))
  | .byName =>
    if df.hasNameColumn then
      match mode with
      | .exact => .ok (df.rows.filter fun r => r.name == some query)
      | .fuzzy => .ok (df.rows.filter fun r =>
          match r.name with
          | none => false
          | some s => reSearch query.data s.data)
    else .error .configurationError

/-! ### Literal substring containment (the spec's notion of fuzzy match) -/

/-- `litMatchAt pat s` : `pat` is literally (character for character) a
prefix of `s`. -/
def litMatchAt : List Char → List Char → Bool
  | [], _ => true
  | _ :: _, [] => false
  | p :: ps, c :: cs => p == c && litMatchAt ps cs

/-- `litContains pat s` : `pat` occurs literally as a contiguous substring
of `s` — the spec's notion of fuzzy matching. -/
def litContains (pat : List Char) : List Char → Bool
  | [] => litMatchAt pat []
  | c :: cs => litMatchAt pat (c :: cs) || litContains pat cs

/-! ### String ordering (pandas `groupby(sort=True)` key order)

Python compares strings lexicographically by Unicode code point; that is
the order in which `groupby` emits its (distinct) group keys. -/

/-- Lexicographic comparison of character lists by code point. -/
def charListLe : List Char → List Char → Bool
  | [], _ => true
  | _ :: _, [] => false
  | a :: as, b :: bs =>
    if a.toNat < b.toNat then true
    else if b.toNat < a.toNat then false
    else charListLe as bs

/-- Python's `<=` on strings: lexicographic by Unicode code point. -/
def strLeP (s t : String) : Prop := charListLe s.data t.data = true

instance : DecidableRel strLeP := fun s t =>
  inferInstanceAs (Decidable (charListLe s.data t.data = true))

/-! ### Grouping and aggregation (src/app2.py line 203) -/

/-- The distinct elements of a list in first-appearance order. -/
def dedupFirst : List String → List String
  | [] => []
  | x :: xs => x :: (dedupFirst xs).filter (fun y => y != x)

/-- The distinct non-missing industry keys of a dataset in first-appearance
order (the order the spec asserts for group iteration). -/
def firstAppearanceKeys (rows : List Record) : List String :=
  dedupFirst (rows.filterMap (·.industry))

/-- Embedding of the group-key order of `df.groupby(industry_column)`
(src/app2.py line 203): pandas `groupby` keeps its default `sort=True`, so
groups are emitted in ascending sorted order of the key (rows with a
missing key are dropped, pandas' default `dropna=True`). -/
def groupKeys (rows : List Record) : List String :=
  List.insertionSort strLeP (firstAppearanceKeys rows)

/-- The value of the named metric cell of a row (`none` when the cell is
missing or the column does not exist on the row). -/
def cellVal (r : Record) (m : String) : Option ℚ :=
  (r.cells.lookup m).bind id

/-- Mean of the non-missing values of a list of cells; `none` when every
cell is missing (pandas: the mean of an all-NaN group is NaN). -/
def meanOpt (vs : List (Option ℚ)) : Option ℚ :=
  match vs.filterMap id with
  | [] => none
  | x :: xs => some ((x :: xs).sum / (x :: xs).length)

/-- The aggregated cell for one group and one metric: the mean of the
metric's non-missing values over the rows of that group. -/
def groupMean (rows : List Record) (g m : String) : Option ℚ :=
  meanOpt ((rows.filter fun r => r.industry == some g).map fun r => cellVal r m)

/-- Embedding of
`df.groupby(industry_column)[selected_metrics].mean().reset_index()`
(src/app2.py line 203): one wide row per group key, in `groupKeys` order,
holding for each selected metric the mean of its non-missing values over
the group. -/
def aggregateByGroup (rows : List Record) (metrics : List String) :
    List (String × List (String × Option ℚ)) :=
  (groupKeys rows).map fun g => (g, metrics.map fun m => (m, groupMean rows g m))

/-- Embedding of `pd.melt(industry_data, id_vars=[industry_column],
value_vars=selected_metrics, ...)` (src/app2.py lines 206-212): one long
record (group key, metric name, value) per (metric, wide row) pair —
pandas `melt` stacks one block per value column, so the metric is the
outer loop. -/
def toLongForm (wide : List (String × List (String × Option ℚ)))
    (metrics : List String) : List (String × String × Option ℚ) :=
  metrics.flatMap fun m => wide.map fun gr => (gr.1, m, (gr.2.lookup m).bind id)

/-- Reconstructing one wide cell from the long form: the value carried by
the (first) long record with the given group key and metric name. -/
def pivotCell (long : List (String × String × Option ℚ)) (g m : String) :
    Option (Option ℚ) :=
  (long.find? fun t => t.1 == g && t.2.1 == m).map (·.2.2)

/-! ### Schema classification (src/app2.py lines 59-61) -/

/-- The pandas dtypes relevant to `select_dtypes(include=['float64','int64'])`:
a column is uniformly integer-typed, uniformly float-typed, or `object`
(text / mixed). -/
inductive Dtype
  | int64
  | float64
  | object
deriving Repr, DecidableEq

/-- Embedding of the metric-column extraction (src/app2.py lines 59-61):
`numeric_columns = df.select_dtypes(include=['float64','int64']).columns.tolist()`
— the numeric-typed columns in their original left-to-right order — then
`if "股票代码" in numeric_columns: numeric_columns.remove("股票代码")`,
which removes the first occurrence of the identifier column. -/
def numericColumns (schema : List (String × Dtype)) : List String :=
  let ns := (schema.filter fun c => c.2 == Dtype.float64 || c.2 == Dtype.int64).map (·.1)
  if "股票代码" ∈ ns then ns.erase "股票代码" else ns

/-! ### Radar-range computation (src/app2.py lines 227-228) -/

/-- Minimum of a list of rationals (`Series.min()`); the empty case is
irrelevant to the claims (pandas would return NaN). -/
def listMin : List ℚ → ℚ
  | [] => 0
  | [x] => x
  | x :: y :: xs => min x (listMin (y :: xs))

/-- Maximum of a list of rationals (`Series.max()`). -/
def listMax : List ℚ → ℚ
  | [] => 0
  | [x] => x
  | x :: y :: xs => max x (listMax (y :: xs))

/-- Embedding of the radar-chart range computation (src/app2.py lines
227-228): `min_val = values.min() * 0.9` and `max_val = values.max() * 1.1`
— the multiplication is applied unconditionally, whatever the sign of the
minimum. -/
def suggestRange (values : List ℚ) : ℚ × ℚ :=
  (listMin values * (9 / 10), listMax values * (11 / 10))

/-! ## Supporting lemmas -/

instance {ε α : Type} [DecidableEq ε] [DecidableEq α] : DecidableEq (Except ε α) := fun a b =>
  match a, b with
  | .error x, .error y => decidable_of_iff (x = y) (by simp)
  | .error _, .ok _ => isFalse fun h => Except.noConfusion h
  | .ok _, .error _ => isFalse fun h => Except.noConfusion h
  | .ok x, .ok y => decidable_of_iff (x = y) (by simp)

theorem litMatchAt_iff : ∀ pat s : List Char, litMatchAt pat s = true ↔ pat <+: s
  | [], s => by simp [litMatchAt, List.nil_prefix]
  | p :: ps, [] => by simp [litMatchAt]
  | p :: ps, c :: cs => by
    simp [litMatchAt, List.cons_prefix_cons, litMatchAt_iff ps cs, and_comm]

theorem litContains_iff : ∀ pat s : List Char, litContains pat s = true ↔ pat <:+: s
  | pat, [] => by
    cases pat <;> simp [litContains, litMatchAt]
  | pat, c :: cs => by
    rw [List.infix_cons_iff, ← litMatchAt_iff, ← litContains_iff pat cs]
    simp [litContains]

theorem matchesAt_eq_litMatchAt :
    ∀ pat s : List Char, '.' ∉ pat → matchesAt pat s = litMatchAt pat s
  | [], _, _ => rfl
  | _ :: _, [], _ => rfl
  | p :: ps, c :: cs, h => by
    have hp : ¬p = '.' := fun he => h (he ▸ List.mem_cons_self p ps)
    have hps : '.' ∉ ps := fun hm => h (List.mem_cons_of_mem _ hm)
    simp [matchesAt, litMatchAt, dotMatches, beq_false_of_ne hp,
      matchesAt_eq_litMatchAt ps cs hps]

theorem reSearch_eq_litContains (pat : List Char) (hp : '.' ∉ pat) :
    ∀ s : List Char, reSearch pat s = litContains pat s
  | [] => by simp [reSearch, litContains, matchesAt_eq_litMatchAt pat [] hp]
  | c :: cs => by
    simp [reSearch, litContains, matchesAt_eq_litMatchAt pat (c :: cs) hp,
      reSearch_eq_litContains pat hp cs]

theorem charListLe_total : ∀ l₁ l₂ : List Char, charListLe l₁ l₂ = true ∨ charListLe l₂ l₁ = true
  | [], _ => by simp [charListLe]
  | _ :: _, [] => by simp [charListLe]
  | a :: as, b :: bs => by
    simp only [charListLe]
    rcases charListLe_total as bs with h | h <;> split_ifs <;> simp [h]

theorem charListLe_trans :
    ∀ l₁ l₂ l₃ : List Char, charListLe l₁ l₂ = true → charListLe l₂ l₃ = true →
      charListLe l₁ l₃ = true
  | [], _, _, _, _ => by simp [charListLe]
  | _ :: _, [], _, h₁, _ => by simp [charListLe] at h₁
  | _ :: _, _ :: _, [], _, h₂ => by simp [charListLe] at h₂
  | a :: as, b :: bs, c :: cs, h₁, h₂ => by
    simp only [charListLe] at h₁ h₂ ⊢
    split_ifs at h₁ h₂ ⊢ <;>
      first
        | rfl
        | omega
        | exact charListLe_trans as bs cs h₁ h₂

instance : IsTotal String strLeP :=
  ⟨fun s t => charListLe_total s.data t.data⟩

instance : IsTrans String strLeP :=
  ⟨fun s t u => charListLe_trans s.data t.data u.data⟩

theorem dedupFirst_nodup : ∀ l : List String, (dedupFirst l).Nodup
  | [] => List.nodup_nil
  | x :: xs => by
    refine List.nodup_cons.mpr ⟨fun hx => ?_, (dedupFirst_nodup xs).filter _⟩
    have := (List.mem_filter.mp hx).2
    simp at this

theorem lookup_map_self {α : Type} (f : String → α) :
    ∀ (ms : List String) (m : String), m ∈ ms →
      (ms.map fun x => (x, f x)).lookup m = some (f m)
  | [], m, hm => absurd hm (List.not_mem_nil m)
  | m' :: rest, m, hm => by
    by_cases h : m = m'
    · subst h; simp [List.lookup]
    · have : m ∈ rest := (List.mem_cons.mp hm).resolve_left h
      simp [List.lookup, beq_false_of_ne h, lookup_map_self f rest m this]

theorem find?_block_hit (v : String → Option ℚ) (m : String) :
    ∀ (keys : List String) (g : String), g ∈ keys →
      (keys.map fun k => (k, m, v k)).find? (fun t => t.1 == g && t.2.1 == m) =
        some (g, m, v g)
  | [], g, hg => absurd hg (List.not_mem_nil g)
  | k :: rest, g, hg => by
    by_cases h : k = g
    · subst h; simp [List.find?]
    · have : g ∈ rest := (List.mem_cons.mp hg).resolve_left (fun he => h he.symm)
      simp [List.find?, beq_false_of_ne h, find?_block_hit v m rest g this]

theorem find?_block_miss (v : String → Option ℚ) (g m m' : String) (hne : m' ≠ m) :
    ∀ keys : List String,
      (keys.map fun k => (k, m', v k)).find? (fun t => t.1 == g && t.2.1 == m) = none
  | [] => rfl
  | k :: rest => by
    simp [List.find?, beq_false_of_ne hne, find?_block_miss v g m m' hne rest]

theorem aggregateByGroup_keys (rows : List Record) (metrics : List String) :
    (aggregateByGroup rows metrics).map Prod.fst = groupKeys rows := by
  simp only [aggregateByGroup, List.map_map]
  exact List.map_id _

theorem toLongForm_find? (rows : List Record) (metrics : List String) (g m : String)
    (hm : m ∈ metrics) (hg : g ∈ groupKeys rows) :
    ∀ ms : List String, m ∈ ms →
      (toLongForm (aggregateByGroup rows metrics) ms).find?
          (fun t => t.1 == g && t.2.1 == m) =
        some (g, m, groupMean rows g m) := by
  intro ms hms
  induction ms with
  | nil => exact absurd hms (List.not_mem_nil m)
  | cons m' rest ih =>
    have hblock : (aggregateByGroup rows metrics).map
        (fun gr => (gr.1, m', (gr.2.lookup m').bind id)) =
        (groupKeys rows).map
          (fun g' => (g', m', (((metrics.map fun x => (x, groupMean rows g' x)).lookup m').bind id))) := by
      simp [aggregateByGroup, List.map_map, Function.comp]
    rw [show toLongForm (aggregateByGroup rows metrics) (m' :: rest) =
        ((aggregateByGroup rows metrics).map
          (fun gr => (gr.1, m', (gr.2.lookup m').bind id))) ++
          toLongForm (aggregateByGroup rows metrics) rest from by
        simp [toLongForm]]
    rw [List.find?_append, hblock]
    by_cases he : m' = m
    · subst he
      have hv : ∀ g' : String,
          ((metrics.map fun x => (x, groupMean rows g' x)).lookup m').bind id =
            groupMean rows g' m' := by
        intro g'
        rw [lookup_map_self (fun x => groupMean rows g' x) metrics m' hm]
        rfl
      have : ((groupKeys rows).map
          (fun g' => (g', m', groupMean rows g' m'))).find?
            (fun t => t.1 == g && t.2.1 == m') = some (g, m', groupMean rows g m') :=
        find?_block_hit (fun g' => groupMean rows g' m') m' (groupKeys rows) g hg
      rw [show ((groupKeys rows).map fun g' =>
            (g', m', (((metrics.map fun x => (x, groupMean rows g' x)).lookup m').bind id))) =
          (groupKeys rows).map fun g' => (g', m', groupMean rows g' m') from by
        simp only [hv]]
      rw [this]
      rfl
    · rw [find?_block_miss _ g m m' he]
      have hrest : m ∈ rest := (List.mem_cons.mp hms).resolve_left fun h => he h.symm
      rw [ih hrest]
      rfl

theorem listMin_mem : ∀ l : List ℚ, l ≠ [] → listMin l ∈ l
  | [], h => absurd rfl h
  | [x], _ => by simp [listMin]
  | x :: y :: xs, _ => by
    rcases min_choice x (listMin (y :: xs)) with h | h
    · simp [listMin, h]
    · have := listMin_mem (y :: xs) (by simp)
      simp only [listMin, h]
      exact List.mem_cons_of_mem x this

theorem listMax_mem : ∀ l : List ℚ, l ≠ [] → listMax l ∈ l
  | [], h => absurd rfl h
  | [x], _ => by simp [listMax]
  | x :: y :: xs, _ => by
    rcases max_choice x (listMax (y :: xs)) with h | h
    · simp [listMax, h]
    · have := listMax_mem (y :: xs) (by simp)
      simp only [listMax, h]
      exact List.mem_cons_of_mem x this

/-! ## Claims -/

/-- C1 (counterexample): the claim's own example is inverted on the code.
For query "308" the record with identifier 30884 IS returned — its decimal
string "30884" starts with "308" — and the record with identifier 300884 is
NOT ("300884" has no "308" substring). -/
theorem c1_counterexample :
    resolve ⟨[{code := 30884}, {code := 300884}], false⟩ "308" .identifier .fuzzy =
      .ok [{code := 30884}] := by
  decide

/-- C1 (amended): for a digit-only query (hence free of regex
metacharacters), identifier+fuzzy resolution returns exactly the records
whose identifier's canonical decimal string contains the query as a literal
substring; on the spec's example the outcome is the reverse of the claimed
one — "30884" does contain "308" and "300884" does not. -/
theorem c1_identifier_fuzzy_digit_query :
    (∀ (df : Frame) (q : String), (∀ c ∈ q.data, c.isDigit = true) →
      resolve df q .identifier .fuzzy =
        .ok (df.rows.filter fun r => litContains q.data (Nat.toDigits 10 r.code))) ∧
    (∀ pat s : List Char, litContains pat s = true ↔ pat <:+: s) ∧
    litContains "308".data (Nat.toDigits 10 30884) = true ∧
    litContains "308".data (Nat.toDigits 10 300884) = false := by
  refine ⟨fun df q hq => ?_, litContains_iff, by decide, by decide⟩
  have hdot : '.' ∉ q.data := fun hm => absurd (hq '.' hm) (by decide)
  simp only [resolve]
  congr 1
  apply List.filter_congr
  intro r _
  rw [reSearch_eq_litContains q.data hdot]

/-- C1 (witness): the amended theorem applied at a concrete dataset and the
digit query "308". -/
theorem c1_witness :
    resolve ⟨[{code := 30884}, {code := 300884}, {code := 12}], false⟩ "308"
        .identifier .fuzzy = .ok [{code := 30884}] :=
  (c1_identifier_fuzzy_digit_query.1
    ⟨[{code := 30884}, {code := 300884}, {code := 12}], false⟩ "308"
    (by decide)).trans (by decide)

/-- C2 (counterexample): on the code `suggest_range([-5, 10])` is
`(-4.5, 11)`: the lower bound is multiplied by 0.9 even though the minimum
is negative, not left unpadded at `-5` as claimed. -/
theorem c2_counterexample :
    suggestRange [-5, 10] = (-9/2, 11) ∧ ((-9 : ℚ)/2 ≠ -5) := by
  constructor
  · simp [suggestRange, listMin, listMax]
    norm_num
  · norm_num

/-- C2 (amended): `suggest_range` returns `(min*0.9, max*1.1)`
unconditionally. For all-positive inputs that pads both ends — a positive
lower bound strictly below the minimum and an upper bound strictly above the
maximum — and `suggest_range([10,20,30]) = (9, 33)`; a negative minimum is
also multiplied by 0.9, pulling it toward zero: `suggest_range([-5,10]) =
(-4.5, 11)`. -/
theorem c2_suggestRange_padding :
    suggestRange [10, 20, 30] = (9, 33) ∧
    suggestRange [-5, 10] = (-9/2, 11) ∧
    (∀ l : List ℚ, l ≠ [] → (∀ x ∈ l, 0 < x) →
      0 < (suggestRange l).1 ∧ (suggestRange l).1 < listMin l ∧
        listMax l < (suggestRange l).2) := by
  refine ⟨?_, ?_, fun l hne hpos => ?_⟩
  · simp [suggestRange, listMin, listMax]
    norm_num
  · simp [suggestRange, listMin, listMax]
    norm_num
  · have hmin : 0 < listMin l := hpos _ (listMin_mem l hne)
    have hmax : 0 < listMax l := hpos _ (listMax_mem l hne)
    refine ⟨?_, ?_, ?_⟩ <;> simp [suggestRange] <;> nlinarith

/-- C2 (witness): the padding property of the amended theorem at the
concrete all-positive input `[1, 2]`. -/
theorem c2_witness :
    0 < (suggestRange [1, 2]).1 ∧ (suggestRange [1, 2]).1 < listMin [1, 2] ∧
      listMax [1, 2] < (suggestRange [1, 2]).2 :=
  c2_suggestRange_padding.2.2 [1, 2] (by simp) (by norm_num)

/-- C3 (counterexample): a dataset whose groups first appear in the order
["b", "a"] is aggregated with group order ["a", "b"]: `groupby` keeps its
default `sort=True`, so groups are emitted in sorted order, not
first-appearance order. -/
theorem c3_counterexample :
    (aggregateByGroup
        [{code := 1, industry := some "b"}, {code := 2, industry := some "a"}]
        []).map Prod.fst = ["a", "b"] ∧
    firstAppearanceKeys
        [{code := 1, industry := some "b"}, {code := 2, industry := some "a"}] =
      ["b", "a"] ∧
    (["a", "b"] : List String) ≠ ["b", "a"] := by
  refine ⟨by decide, by decide, by decide⟩

/-- C3 (amended): `aggregate_by_group` emits its groups in ascending sorted
order of the grouping value (Python string order: lexicographic by code
point) — a duplicate-free permutation of the distinct keys in
first-appearance order, not that order itself. -/
theorem c3_groupKeys_sorted :
    ∀ (rows : List Record) (metrics : List String),
      (aggregateByGroup rows metrics).map Prod.fst = groupKeys rows ∧
      List.Sorted strLeP (groupKeys rows) ∧
      List.Perm (groupKeys rows) (firstAppearanceKeys rows) ∧
      (groupKeys rows).Nodup := by
  intro rows metrics
  have hperm : List.Perm (groupKeys rows) (firstAppearanceKeys rows) :=
    List.perm_insertionSort strLeP _
  exact ⟨aggregateByGroup_keys rows metrics, List.sorted_insertionSort strLeP _,
    hperm, hperm.nodup_iff.mpr (dedupFirst_nodup _)⟩

/-- C5: round-trip law — pivoting the long form of the aggregated view back
at a (group key, metric name) pair reproduces the aggregated mean of that
cell exactly. -/
theorem c5_roundtrip :
    ∀ (rows : List Record) (metrics : List String) (g m : String),
      m ∈ metrics → g ∈ groupKeys rows →
      pivotCell (toLongForm (aggregateByGroup rows metrics) metrics) g m =
        some (groupMean rows g m) := by
  intro rows metrics g m hm hg
  unfold pivotCell
  rw [toLongForm_find? rows metrics g m hm hg metrics hm]
  rfl

/-- C5 (witness): the round trip at a concrete two-row dataset with one
group "x" and one metric "v". -/
theorem c5_witness :
    pivotCell
        (toLongForm
          (aggregateByGroup
            [{code := 1, industry := some "x", cells := [("v", some 2)]},
             {code := 2, industry := some "x", cells := [("v", some 4)]}] ["v"])
          ["v"]) "x" "v" =
      some (groupMean
        [{code := 1, industry := some "x", cells := [("v", some 2)]},
         {code := 2, industry := some "x", cells := [("v", some 4)]}] "x" "v") :=
  c5_roundtrip _ ["v"] "x" "v" (by decide) (by decide)

/-- C6: identifier+exact parses the query as an integer; a non-parsing query
such as "abc" yields the validation error (no silent coercion), a parsing
query returns exactly the records whose identifier equals the parsed value,
and when no identifier equals it the result is an empty match, not an
error. -/
theorem c6_identifier_exact :
    (∀ df : Frame, resolve df "abc" .identifier .exact = .error .validationError) ∧
    (∀ (df : Frame) (q : String) (n : Int), pyInt q.data = some n →
      resolve df q .identifier .exact =
        .ok (df.rows.filter fun r => (r.code : Int) == n)) ∧
    (∀ (df : Frame) (q : String) (n : Int), pyInt q.data = some n →
      (∀ r ∈ df.rows, (r.code : Int) ≠ n) →
      resolve df q .identifier .exact = .ok []) := by
  refine ⟨fun df => ?_, fun df q n h => ?_, fun df q n h hnone => ?_⟩
  · have habc : pyInt "abc".data = none := by decide
    simp [resolve, habc]
  · simp [resolve, h]
  · have hnil : (df.rows.filter fun r => (r.code : Int) == n) = [] := by
      rw [List.filter_eq_nil_iff]
      intro r hr
      simpa using hnone r hr
    simp [resolve, h, hnil]

/-- C6 (witness): on a one-record dataset, "abc" raises the validation
error and the parsable "99" (matching nothing) returns an empty result. -/
theorem c6_witness :
    resolve ⟨[{code := 7}], false⟩ "abc" .identifier .exact =
      .error .validationError ∧
    resolve ⟨[{code := 7}], false⟩ "99" .identifier .exact = .ok [] :=
  ⟨c6_identifier_exact.1 ⟨[{code := 7}], false⟩,
   c6_identifier_exact.2.2 ⟨[{code := 7}], false⟩ "99" 99 (by decide) (by decide)⟩

/-- C7 (counterexample): name+fuzzy is regex search, not literal substring
containment: the query "a.c" returns the record named "abc" although "a.c"
is not a literal substring of "abc". -/
theorem c7_counterexample :
    resolve ⟨[{code := 5, name := some "abc"}], true⟩ "a.c" .byName .fuzzy =
      .ok [{code := 5, name := some "abc"}] ∧
    litContains "a.c".data "abc".data = false := by
  exact ⟨by decide, by decide⟩

/-- C7 (amended): for a query without regex metacharacters, name+fuzzy never
fails on records whose name is missing — they are excluded from the match —
and returns exactly the records whose name contains the query as a literal
substring. -/
theorem c7_name_fuzzy_missing_safe :
    ∀ (df : Frame) (q : String), df.hasNameColumn = true →
      (∀ c ∈ q.data, isRegexLiteral c = true) →
      resolve df q .byName .fuzzy =
        .ok (df.rows.filter fun r =>
          match r.name with
          | none => false
          | some s => litContains q.data s.data) ∧
      (∀ res : List Record, resolve df q .byName .fuzzy = .ok res →
        ∀ r ∈ res, r.name ≠ none) := by
  intro df q hcol hq
  have hdot : '.' ∉ q.data := fun hm => absurd (hq '.' hm) (by decide)
  have heq : resolve df q .byName .fuzzy =
      .ok (df.rows.filter fun r =>
        match r.name with
        | none => false
        | some s => litContains q.data s.data) := by
    simp only [resolve, hcol, if_true]
    congr 1
    apply List.filter_congr
    intro r _
    cases hr : r.name with
    | none => rfl
    | some s => simp [reSearch_eq_litContains q.data hdot]
  refine ⟨heq, fun res hres r hr => ?_⟩
  rw [heq] at hres
  cases hres
  have hpred := (List.mem_filter.mp hr).2
  cases hr2 : r.name with
  | none => rw [hr2] at hpred; simp at hpred
  | some s => simp [hr2]

/-- C7 (witness): the amended theorem at a dataset with one named and one
missing-name record and the literal query "a". -/
theorem c7_witness :
    resolve ⟨[{code := 1, name := some "ab"}, {code := 2, name := none}], true⟩
        "a" .byName .fuzzy = .ok [{code := 1, name := some "ab"}] :=
  ((c7_name_fuzzy_missing_safe
      ⟨[{code := 1, name := some "ab"}, {code := 2, name := none}], true⟩
      "a" rfl (by decide)).1).trans (by decide)

/-- C8: the metric columns are the numeric-typed columns in original
left-to-right order with the identifier column removed; in particular
股票代码 is never a metric column (for well-formed schemas whose column
names are distinct). -/
theorem c8_numericColumns :
    ∀ schema : List (String × Dtype), (schema.map Prod.fst).Nodup →
      "股票代码" ∉ numericColumns schema ∧
      List.Sublist (numericColumns schema) (schema.map Prod.fst) ∧
      numericColumns schema =
        ((schema.filter fun c => c.2 == Dtype.float64 || c.2 == Dtype.int64).map
          Prod.fst).erase "股票代码" := by
  intro schema hnd
  have hsub : List.Sublist
      ((schema.filter fun c => c.2 == Dtype.float64 || c.2 == Dtype.int64).map
        Prod.fst) (schema.map Prod.fst) :=
    (List.filter_sublist schema).map Prod.fst
  have hnsnd : ((schema.filter fun c => c.2 == Dtype.float64 || c.2 == Dtype.int64).map
      Prod.fst).Nodup := hnd.sublist hsub
  by_cases hmem : "股票代码" ∈
      (schema.filter fun c => c.2 == Dtype.float64 || c.2 == Dtype.int64).map Prod.fst
  · have h1 : numericColumns schema =
        ((schema.filter fun c => c.2 == Dtype.float64 || c.2 == Dtype.int64).map
          Prod.fst).erase "股票代码" := by
      simp [numericColumns, hmem]
    refine ⟨?_, ?_, h1⟩
    · rw [h1]; exact hnsnd.not_mem_erase
    · rw [h1]; exact (List.erase_sublist _ _).trans hsub
  · have h1 : numericColumns schema =
        (schema.filter fun c => c.2 == Dtype.float64 || c.2 == Dtype.int64).map
          Prod.fst := by
      simp [numericColumns, hmem]
    refine ⟨h1 ▸ hmem, h1 ▸ hsub, ?_⟩
    rw [h1, List.erase_of_not_mem hmem]

/-- C8 (witness): on a concrete schema with a numeric identifier column, a
numeric metric and a text column, the identifier is excluded and the metric
列 kept. -/
theorem c8_witness :
    "股票代码" ∉ numericColumns
        [("股票代码", Dtype.int64), ("总指数", Dtype.float64), ("行业", Dtype.object)] ∧
    numericColumns
        [("股票代码", Dtype.int64), ("总指数", Dtype.float64), ("行业", Dtype.object)] =
      ["总指数"] :=
  ⟨(c8_numericColumns
      [("股票代码", Dtype.int64), ("总指数", Dtype.float64), ("行业", Dtype.object)]
      (by decide)).1, by decide⟩

/-- C9: fuzzy matching interprets the query as a regular-expression pattern:
with the metacharacter '.', a record is returned although its identifier
string (respectively its name) does not literally contain the query. -/
theorem c9_fuzzy_is_regex :
    resolve ⟨[{code := 318}], false⟩ "3.8" .identifier .fuzzy =
      .ok [{code := 318}] ∧
    litContains "3.8".data (Nat.toDigits 10 318) = false ∧
    resolve ⟨[{code := 6, name := some "xyz"}], true⟩ "x.z" .byName .fuzzy =
      .ok [{code := 6, name := some "xyz"}] ∧
    litContains "x.z".data "xyz".data = false := by
  exact ⟨by decide, by decide, by decide, by decide⟩

/-- C10: name+exact compares each record's name to the query; a record whose
name is missing compares unequal — it is silently excluded, never an
error. -/
theorem c10_name_exact_missing_excluded :
    ∀ (df : Frame) (q : String), df.hasNameColumn = true →
      resolve df q .byName .exact =
        .ok (df.rows.filter fun r => r.name == some q) ∧
      ∀ r ∈ df.rows.filter (fun r => r.name == some q), r.name ≠ none := by
  intro df q hcol
  refine ⟨by simp [resolve, hcol], fun r hr => ?_⟩
  have hpred := (List.mem_filter.mp hr).2
  have hname : r.name = some q := by simpa using hpred
  simp [hname]

/-- C10 (witness): on a dataset with one named and one missing-name record,
exact name lookup of "x" returns only the named record. -/
theorem c10_witness :
    resolve ⟨[{code := 1, name := some "x"}, {code := 2, name := none}], true⟩
        "x" .byName .exact = .ok [{code := 1, name := some "x"}] :=
  ((c10_name_exact_missing_excluded
      ⟨[{code := 1, name := some "x"}, {code := 2, name := none}], true⟩
      "x" rfl).1).trans (by decide)

end App2
